import Mathlib

/-!
Verification development for the `mimo` repository (Bayesian mixtures of
tied Gaussians, `mimo/mixtures/tied.py`, `mimo/util/data.py`, `mimo/api.py`).

The numeric type of the Python code (IEEE doubles) is modelled by an
arbitrary linear ordered field `α` together with an environment `Env`
carrying the transcendental functions (`exp`, `log`) and the behaviour of
the conjugate-distribution dependency (`mimo.distributions`), which the
specification treats as an external library.  Non-finite double values
(`nan`, `±inf`) are modelled explicitly by the type `FV`.
-/

set_option linter.unusedSectionVars false

namespace Mimo

/-- An IEEE-double value as the code observes it: either a finite value of
the underlying field, or one of the non-finite values `nan`, `-inf`, `+inf`. -/
inductive FV (α : Type) where
  | nan : FV α
  | ninf : FV α
  | pinf : FV α
  | val : α → FV α
deriving DecidableEq

variable {α : Type} [LinearOrderedField α]

/-- Whether a double value is NaN (model of `np.isnan` on one entry). -/
def FV.isNaN : FV α → Bool
  | .nan => true
  | _ => false

/-- Largest finite IEEE double, `2^1024 - 2^971` (`np.finfo(float).max`). -/
def floatMax : α := 2 ^ (1024 : ℕ) - 2 ^ (971 : ℕ)

/-- Most negative finite IEEE double (`np.finfo(float).min`). -/
def floatMin : α := -floatMax

/-- Model of `np.nan_to_num` on one entry: NaN becomes zero, `-inf` the most
negative finite double, `+inf` the largest finite double. -/
def nanToNum : FV α → α
  | .nan => 0
  | .ninf => floatMin
  | .pinf => floatMax
  | .val x => x

/-- IEEE addition on extended double values (NaN-propagating); used to state
what a claim asserts about sums of possibly non-finite log-likelihoods. -/
def FV.add : FV α → FV α → FV α
  | .nan, _ => .nan
  | _, .nan => .nan
  | .ninf, .pinf => .nan
  | .pinf, .ninf => .nan
  | .ninf, _ => .ninf
  | _, .ninf => .ninf
  | .pinf, _ => .pinf
  | _, .pinf => .pinf
  | .val x, .val y => .val (x + y)

/-- A data row (one observation); entries may be NaN. -/
abbrev Row (α : Type) := List (FV α)

/-- A batch of observations (2-D array, rows × features). -/
abbrev Batch (α : Type) := List (Row α)

/-- Whether a row contains a NaN entry (`np.isnan(obs).any(1)` for one row). -/
def rowHasNaN (r : Row α) : Bool := r.any FV.isNaN

/-- Maximum of a list (model of `np.max` along an axis; 0 on the empty list,
which the code never hits). -/
def listMax : List α → α
  | [] => 0
  | x :: xs => xs.foldl max x

/-- Cumulative sums of a list (model of `np.cumsum`). -/
def cumsum (l : List α) : List α :=
  (List.range l.length).map (fun i => ((l.take (i + 1)).sum))

/-! ### `mimo/util/data.py` -/

/-- Model of `gi` (`mimo/util/data.py`): for a 2-D array, the boolean row
mask marking the rows free of NaN; for a zero-length array the code returns
`None` instead of an empty mask. -/
def gi (d : Batch α) : Option (List Bool) :=
  if d.isEmpty then none
  else some (d.map (fun r => r.countP FV.isNaN == 0))

/-- Model of `getdatasize` (`mimo/util/data.py`) on a 2-D array: 0 for a
zero-length array, otherwise the number of rows selected by the mask `gi`. -/
def getdatasizeArr (d : Batch α) : ℕ :=
  if d.isEmpty then 0
  else
    match gi d with
    | some mask => mask.countP (fun b => b)
    | none => 0

/-- Model of `getdatasize` (`mimo/util/data.py`) on a list of arrays:
the sum of the per-array sizes. -/
def getdatasizeList (ds : List (Batch α)) : ℕ :=
  (ds.map getdatasizeArr).sum

/-! ### Random source

A seeded pseudo-random stream: an infinite sequence of uniform draws and a
position.  Every random primitive of the code consumes draws from it in
order, which models single-threaded sampling from a seeded generator. -/

/-- A seeded pseudo-random stream with a current position. -/
structure RNG (α : Type) where
  seq : ℕ → α
  pos : ℕ

/-- Consume one uniform draw. -/
def RNG.next (g : RNG α) : α × RNG α := (g.seq g.pos, ⟨g.seq, g.pos + 1⟩)

/-! ### Distribution dependency

The conjugate-distribution families (`mimo.distributions`) are an external
dependency of `tied.py`; only the capabilities the mixture calls are
modelled, as fields of an environment. -/

/-- A gating distribution as `tied.py` sees it: its per-index log-likelihood.
The distribution internals live in the dependency environment `Env`. -/
structure Gating (α : Type) where
  ll : ℕ → α

/-- A mixture component as `tied.py` sees it: its per-row log-likelihood
(an extended double: NaN on rows with missing values, `-inf` where the
density is zero). -/
structure Component (α : Type) where
  ll : Row α → FV α

/-- The tied-Gaussian ensemble: the list of components (shared covariance
is internal to the dependency and not observed by the claims). -/
structure Ensemble (α : Type) where
  components : List (Component α)

/-- Environment: the transcendental functions of the numeric type and the
behaviour of the external distribution library (`mimo.distributions`,
`sklearn`), which the spec treats as a dependency. -/
structure Env (α : Type) where
  exp : α → α
  log : α → α
  gatingResample : Gating α → List ℕ → α → Gating α
  gatingRvs : Gating α → ℕ → RNG α → List ℕ × RNG α
  compResample : Component α → List (Row α) → α → Component α
  pcaFit : List (Row α) → Batch α → Batch α

/-! ### The mixture state (`BayesianMixtureOfTiedGaussians.__init__`) -/

/-- The state of a `BayesianMixtureOfTiedGaussians`: gating, ensemble (whose
component list is also exposed as `self.components`), stored observation
batches and parallel label batches, and the whitening flag/transform. -/
structure Mixture (α : Type) where
  gating : Gating α
  ensemble : Ensemble α
  obs : List (Batch α)
  labels : List (List ℕ)
  whitend : Bool
  transform : Option (Batch α → Batch α)

/-- `self.components` (aliased to `self.ensemble.components` in `__init__`). -/
def Mixture.components (m : Mixture α) : List (Component α) :=
  m.ensemble.components

/-- `size`: the number of components. -/
def Mixture.size (m : Mixture α) : ℕ := m.ensemble.components.length

/-- `has_data`: whether any observation batch is stored. -/
def Mixture.hasData (m : Mixture α) : Bool := !m.obs.isEmpty

/-- `clear_data` (`tied.py`): drop all observation batches and labels;
every other field is left as it is. -/
def Mixture.clearData (m : Mixture α) : Mixture α :=
  { m with obs := [], labels := [] }

/-- Upper bound needed to model `np.bincount`: one more than the largest
label occurring in the stored label batches. -/
def labelsUB (ls : List (List ℕ)) : ℕ :=
  (ls.flatten.map (· + 1)).foldr max 0

/-- Total number of occurrences of label `k` across all stored batches
(the entry `k` of the summed `np.bincount`s). -/
def labelCount (ls : List (List ℕ)) (k : ℕ) : ℕ :=
  ls.flatten.countP (· == k)

/-- `used_labels` (`tied.py`): asserts that data is present (modelled by
`none`, the Python `AssertionError`); otherwise the indices with nonzero
total assignment count, in increasing order (`np.where(label_usages > 0)`
over the summed `np.bincount(_, minlength=size)`s). -/
def Mixture.usedLabels (m : Mixture α) : Option (List ℕ) :=
  if m.hasData then
    some ((List.range (max m.size (labelsUB m.labels))).filter
      (fun k => 0 < labelCount m.labels k))
  else none

/-- The `np.bincount` vector of the stored labels, truncated at the mixture
size (the counts the gating posterior is resampled from). -/
def Mixture.labelCounts (m : Mixture α) : List ℕ :=
  (List.range m.size).map (labelCount m.labels)

/-! ### `add_data` (`tied.py`) -/

/-- One label per row of each new batch, drawn from the gating
(`self.labels.append(self.gating.rvs(len(_obs)))`). -/
def drawLabels (E : Env α) (gat : Gating α) :
    List (Batch α) → RNG α → List (List ℕ) × RNG α
  | [], g => ([], g)
  | b :: bs, g =>
    let p := E.gatingRvs gat b.length g
    let q := drawLabels E gat bs p.2
    (p.1 :: q.1, q.2)

/-- `add_data` (`tied.py`): appends one freshly drawn label batch per new
observation batch; if whitening is requested it fits a PCA transform on the
stacked new data, stores it, and appends the transformed batches to
`self.obs` — otherwise it assigns `self.obs = obs`, replacing whatever was
stored. -/
def Mixture.addData (E : Env α) (m : Mixture α) (obs : List (Batch α))
    (whiten : Bool) (g : RNG α) : Mixture α × RNG α :=
  let p := drawLabels E m.gating obs g
  let m1 : Mixture α := { m with labels := m.labels ++ p.1 }
  if whiten then
    let t := E.pcaFit obs.flatten
    ({ m1 with whitend := true, transform := some t,
               obs := m1.obs ++ obs.map t }, p.2)
  else
    ({ m1 with obs := obs }, p.2)

/-! ### Scores (`log_scores`, `scores`, `log_likelihood` in `tied.py`) -/

/-- One row of `log_scores` (`tied.py`): for each component index `k`,
`gating.log_likelihood(k)` plus the `np.nan_to_num`-clamped component
log-likelihood of the row. -/
def Mixture.scoreRow (m : Mixture α) (r : Row α) : List α :=
  List.zipWith (fun k c => m.gating.ll k + nanToNum (c.ll r))
    (List.range m.size) m.components

/-- `log_scores` (`tied.py`): the `N × K` matrix of per-row log joint
scores. -/
def Mixture.logScores (m : Mixture α) (obs : Batch α) : List (List α) :=
  obs.map m.scoreRow

/-- Exponentiate one row of log scores with row-max subtraction and
normalize it (`np.exp(logr - np.max(logr))` then division by the row sum). -/
def normalizeRow (exp : α → α) (s : List α) : List α :=
  let e := s.map (fun x => exp (x - listMax s))
  e.map (fun x => x / e.sum)

/-- `scores` (`tied.py`): the row-normalized responsibility matrix. -/
def Mixture.scores (E : Env α) (m : Mixture α) (obs : Batch α) :
    List (List α) :=
  (m.logScores obs).map (normalizeRow E.exp)

/-- `scipy.special.logsumexp` on one row of scores: the log of the sum of
exponentials. -/
def logsumexp (E : Env α) (s : List α) : α := E.log ((s.map E.exp).sum)

/-- `log_likelihood` (`tied.py`) on one observation matrix: the sum of the
row-wise `logsumexp` of `log_scores`, restricted by the mask
`~np.isnan(obs).any(1)` to the rows free of NaN. -/
def Mixture.logLikelihoodB (E : Env α) (m : Mixture α) (b : Batch α) : α :=
  (((b.zip (m.logScores b)).filter (fun p => !rowHasNaN p.1)).map
    (fun p => logsumexp E p.2)).sum

/-- `log_likelihood` (`tied.py`) on a list of observation matrices: the sum
of the per-matrix values. -/
def Mixture.logLikelihoodL (E : Env α) (m : Mixture α)
    (bs : List (Batch α)) : α :=
  (bs.map (m.logLikelihoodB E)).sum

/-! ### Gibbs sampling (`resample` and its helpers in `tied.py`) -/

/-- Rows of all stored batches whose current label is `k` — the data
currently assigned to component `k`. -/
def assignedRows (obs : List (Batch α)) (labels : List (List ℕ)) (k : ℕ) :
    List (Row α) :=
  ((obs.zip labels).map
    (fun bl => (bl.1.zip bl.2).filterMap
      (fun rl => if rl.2 = k then some rl.1 else none))).flatten

/-- Modelled from the spec: the tied-Gaussian ensemble's `resample`
(`mimo.distributions`, not among the provided sources) resamples every
component's posterior from the data rows currently assigned to it, the
component at index `k` (counting from `k0`) consuming one uniform draw. -/
def resampleComponents (E : Env α) (obs : List (Batch α))
    (labels : List (List ℕ)) :
    List (Component α) → ℕ → RNG α → List (Component α) × RNG α
  | [], _, g => ([], g)
  | c :: cs, k0, g =>
    let p := g.next
    let q := resampleComponents E obs labels cs (k0 + 1) p.2
    (E.compResample c (assignedRows obs labels k0) p.1 :: q.1, q.2)

/-- `_resample_ensemble` (`tied.py`), through the dependency's ensemble
`resample`: every component's posterior resampled from its assigned rows. -/
def Ensemble.resample (E : Env α) (e : Ensemble α) (obs : List (Batch α))
    (labels : List (List ℕ)) (g : RNG α) : Ensemble α × RNG α :=
  let p := resampleComponents E obs labels e.components 0 g
  (⟨p.1⟩, p.2)

/-- Modelled from the spec: `_resample_gating` (`tied.py`) hands the label
batches to the gating's `resample` (`mimo.distributions`, not among the
provided sources), which resamples the gating posterior from the label
counts, consuming one uniform draw. -/
def Mixture.resampleGating (E : Env α) (m : Mixture α) (g : RNG α) :
    Gating α × RNG α :=
  let p := g.next
  (E.gatingResample m.gating m.labelCounts p.1, p.2)

/-- Modelled from the spec: `sample_discrete_from_log` (`mimo/util/stats.py`,
not among the provided sources) samples one label from the categorical
distribution obtained by exponentiating the log scores with max-subtraction
and normalizing: the label is the number of cumulative weights lying
strictly below the uniform draw `u` scaled by the total weight. -/
def sampleDiscreteFromLog (exp : α → α) (s : List α) (u : α) : ℕ :=
  let w := s.map (fun x => exp (x - listMax s))
  (cumsum w).countP (fun c => decide (c < u * w.sum))

/-- One label per row of a batch, sampled from the row's log scores, each
row consuming one uniform draw. -/
def sampleLabelsRows (E : Env α) (m : Mixture α) :
    Batch α → RNG α → List ℕ × RNG α
  | [], g => ([], g)
  | r :: rs, g =>
    let p := g.next
    let q := sampleLabelsRows E m rs p.2
    (sampleDiscreteFromLog E.exp (m.scoreRow r) p.1 :: q.1, q.2)

/-- `_resample_labels` (`tied.py`): for each batch, sample one new label per
row from that row's log scores. -/
def Mixture.resampleLabels (E : Env α) (m : Mixture α) :
    List (Batch α) → RNG α → List (List ℕ) × RNG α
  | [], g => ([], g)
  | b :: bs, g =>
    let p := sampleLabelsRows E m b g
    let q := m.resampleLabels E bs p.2
    (p.1 :: q.1, q.2)

/-- `resample` (`tied.py`): one Gibbs sweep over the stored data (the
`pass_obs_and_labels_arg` decorator, not among the provided sources, passes
`self.obs` and `self.labels` when the caller passes nothing): resample the
ensemble from the assigned rows, then the gating from the label counts, then
sample new labels row by row, and store them when data is present. -/
def Mixture.resample (E : Env α) (m : Mixture α) (g : RNG α) :
    Mixture α × RNG α :=
  let pe := Ensemble.resample E m.ensemble m.obs m.labels g
  let m1 : Mixture α := { m with ensemble := pe.1 }
  let pg := m1.resampleGating E pe.2
  let m2 : Mixture α := { m1 with gating := pg.1 }
  let pl := m2.resampleLabels E m.obs pg.2
  (if m2.hasData then { m2 with labels := pl.1 } else m2, pl.2)

/-! ### `mimo/api.py`: posterior promotion in `InfiniteLinearRegression.fit`

Python objects are modelled by addresses into a heap of parameter records,
so that reference assignment (aliasing) and in-place mutation are
distinguishable from copying. -/

/-- A distribution object as `fit` sees it: the heap addresses of its
`prior` and `posterior` parameter records.  Modelled from the spec: the
mixture's distribution objects (`mimo.mixtures`, not among the provided
sources) each expose a `prior` and a `posterior` field. -/
structure DistObj where
  prior : ℕ
  posterior : ℕ
deriving DecidableEq

/-- The fields of the regressor that `fit` promotes: the gating and the
per-component basis and model distributions. -/
structure Regressor where
  gating : DistObj
  basis : List DistObj
  models : List DistObj
deriving DecidableEq

/-- A heap of parameter records. -/
def Heap (P : Type) := ℕ → P

/-- In-place mutation of the record at address `a` (what updating a
posterior's parameters does to every alias of that object). -/
def hwrite {P : Type} (h : Heap P) (a : ℕ) (v : P) : Heap P :=
  fun n => if n = a then v else h n

/-- The promotion step of `fit` (`api.py` lines 119–122):
`x.prior = x.posterior` for the gating and every basis and model component —
a reference assignment, storing the posterior's address in the prior field. -/
def promote (r : Regressor) : Regressor :=
  { gating := { r.gating with prior := r.gating.posterior },
    basis := r.basis.map (fun d => { d with prior := d.posterior }),
    models := r.models.map (fun d => { d with prior := d.posterior }) }

/-- The guard of the promotion step in `fit` (`api.py` line 118):
`super_iters > 1 and i + 1 < super_iters`. -/
def promotesAt (s i : ℕ) : Bool := decide (1 < s) && decide (i + 1 < s)

/-! ### Concrete instances over `ℚ`, used by witnesses and counterexamples -/

/-- A concrete dependency environment over `ℚ`: constant transcendentals and
identity-like distribution updates (any behaviour is admissible for the
dependency). -/
def cEnv : Env ℚ :=
  { exp := fun _ => 1
    log := fun _ => 0
    gatingResample := fun gat _ _ => gat
    gatingRvs := fun _ n g => (List.replicate n 0, g)
    compResample := fun c _ _ => c
    pcaFit := fun _ b => b }

/-- A concrete gating with zero log-likelihood everywhere. -/
def cGating : Gating ℚ := ⟨fun _ => 0⟩

/-- A concrete component with finite log-likelihood zero on every row. -/
def cComp : Component ℚ := ⟨fun _ => FV.val 0⟩

/-- A concrete component whose log-likelihood is NaN on every row (what a
Gaussian density returns on a row with missing values). -/
def cCompNan : Component ℚ := ⟨fun _ => FV.nan⟩

/-- A concrete component whose log-likelihood is `-inf` on every row (zero
likelihood everywhere). -/
def cCompNinf : Component ℚ := ⟨fun _ => FV.ninf⟩

/-- A concrete seeded random stream (all draws zero). -/
def cRNG : RNG ℚ := ⟨fun _ => 0, 0⟩

/-- A concrete data row. -/
def cRow : Row ℚ := [FV.val 1]

/-- A concrete empty-data mixture with one ordinary component. -/
def cMix0 : Mixture ℚ := ⟨cGating, ⟨[cComp]⟩, [], [], false, none⟩

/-- A concrete mixture with one stored batch of one row. -/
def cMixD : Mixture ℚ := ⟨cGating, ⟨[cComp]⟩, [[cRow]], [[0]], false, none⟩

/-- A concrete mixture whose single component returns NaN log-likelihoods. -/
def cMixNan : Mixture ℚ := ⟨cGating, ⟨[cCompNan]⟩, [[cRow]], [[0]], false, none⟩

/-- A concrete mixture whose single component returns `-inf`
log-likelihoods. -/
def cMixNinf : Mixture ℚ := ⟨cGating, ⟨[cCompNinf]⟩, [[cRow]], [[0]], false, none⟩

/-- A concrete mixture holding one batch with zero rows. -/
def cMixEB : Mixture ℚ := ⟨cGating, ⟨[cComp]⟩, [[]], [[]], false, none⟩

/-- Like `cMixD` but with a different whitening flag and transform, to
exhibit that resampling ignores those fields. -/
def cMixDW : Mixture ℚ := ⟨cGating, ⟨[cComp]⟩, [[cRow]], [[0]], true, some id⟩

/-- Concrete observation batches for the `add_data` scenario. -/
def cBatch1 : Batch ℚ := [[FV.val 1, FV.val 2]]

/-- Second concrete observation batch for the `add_data` scenario. -/
def cBatch2 : Batch ℚ := [[FV.val 3, FV.val 4]]

/-- The mixture obtained by two successive `add_data` calls (no whitening):
first `cBatch1`, then `cBatch2`. -/
def cAddTwice : Mixture ℚ :=
  ((cMix0.addData cEnv [cBatch1] false cRNG).1.addData cEnv [cBatch2] false
    (cMix0.addData cEnv [cBatch1] false cRNG).2).1

/-- A concrete regressor: the gating's prior record lives at address 0 and
its posterior at address 1, one basis pair at (2,3), one model pair at
(4,5). -/
def cReg : Regressor := ⟨⟨0, 1⟩, [⟨2, 3⟩], [⟨4, 5⟩]⟩

/-- A concrete heap with all parameter records equal to 0. -/
def cHeap : Heap ℕ := fun _ => 0

/-! ### Helper lemmas -/

lemma sum_map_div (l : List α) (c : α) :
    (l.map (fun x => x / c)).sum = l.sum / c := by
  induction l with
  | nil => simp
  | cons x xs ih => simp [ih, add_div]

lemma normalizeRow_sum_eq_one (exp : α → α) (hexp : ∀ x : α, 0 < exp x)
    (s : List α) (hs : s ≠ []) : (normalizeRow exp s).sum = 1 := by
  unfold normalizeRow
  have hne : (s.map (fun x => exp (x - listMax s))) ≠ [] := by
    simpa using hs
  have hpos : 0 < (s.map (fun x => exp (x - listMax s))).sum := by
    apply List.sum_pos
    · intro x hx
      obtain ⟨y, _, rfl⟩ := List.mem_map.mp hx
      exact hexp _
    · exact hne
  rw [sum_map_div, div_self (ne_of_gt hpos)]

lemma scoreRow_length (m : Mixture α) (r : Row α) :
    (m.scoreRow r).length = m.size := by
  simp [Mixture.scoreRow, Mixture.size, Mixture.components]

lemma zipWith_range_congr {β γ : Type} (l : List β) (f : ℕ → β → γ)
    (g : ℕ → γ) (hf : ∀ i b, l.get? i = some b → f i b = g i) :
    List.zipWith f (List.range l.length) l = (List.range l.length).map g := by
  induction l generalizing f g with
  | nil => simp
  | cons c cs ih =>
    rw [List.length_cons, List.range_succ_eq_map]
    simp only [List.zipWith_cons_cons, List.map_cons, List.zipWith_map_left,
      List.map_map]
    refine congrArg₂ _ (hf 0 c rfl) ?_
    exact ih _ _ (fun i b hb => hf (i + 1) b (by simpa using hb))

omit [LinearOrderedField α] in
lemma countP_isNaN_beq_zero (r : Row α) :
    (r.countP FV.isNaN == 0) = !rowHasNaN r := by
  induction r with
  | nil => rfl
  | cons x xs ih =>
    cases hx : FV.isNaN x
    · simpa [rowHasNaN, List.countP_cons, hx, List.any_cons] using ih
    · simp [rowHasNaN, List.countP_cons, hx, List.any_cons]

lemma zip_filter_map_congr {β γ δ : Type} (b : List β) (f : β → γ)
    (q : β → Bool) (h : γ → δ) :
    (((b.zip (b.map f)).filter (fun p => q p.1)).map (fun p => h p.2))
      = ((b.filter q).map (fun r => h (f r))) := by
  induction b with
  | nil => simp
  | cons r rs ih =>
    by_cases hr : q r = true
    · simp [hr, ih]
    · simp only [List.map_cons, List.zip_cons_cons, List.filter_cons]
      rw [if_neg (by simpa using hr), if_neg (by simpa using hr)]
      exact ih

lemma foldr_max_le {l : List ℕ} {n : ℕ} (h : ∀ x ∈ l, x ≤ n) :
    l.foldr max 0 ≤ n := by
  induction l with
  | nil => exact Nat.zero_le n
  | cons x xs ih =>
    simp only [List.foldr_cons]
    exact max_le (h x (by simp)) (ih (fun y hy => h y (by simp [hy])))

lemma resampleComponents_length (E : Env α) (obs : List (Batch α))
    (labels : List (List ℕ)) (cs : List (Component α)) :
    ∀ (k0 : ℕ) (g : RNG α),
      (resampleComponents E obs labels cs k0 g).1.length = cs.length := by
  induction cs with
  | nil => intro k0 g; rfl
  | cons c cs ih => intro k0 g; simp [resampleComponents, RNG.next, ih]

lemma resampleComponents_snd (E : Env α) (obs : List (Batch α))
    (labels : List (List ℕ)) (cs : List (Component α)) :
    ∀ (k0 : ℕ) (g : RNG α),
      (resampleComponents E obs labels cs k0 g).2 = ⟨g.seq, g.pos + cs.length⟩ := by
  induction cs with
  | nil => intro k0 g; simp [resampleComponents]
  | cons c cs ih =>
    intro k0 g
    simp only [resampleComponents, RNG.next, ih, List.length_cons]
    exact congrArg _ (by omega)

lemma resampleComponents_get (E : Env α) (obs : List (Batch α))
    (labels : List (List ℕ)) (cs : List (Component α)) :
    ∀ (k0 : ℕ) (g : RNG α) (i : ℕ),
      (resampleComponents E obs labels cs k0 g).1.get? i
        = (cs.get? i).map (fun c =>
            E.compResample c (assignedRows obs labels (k0 + i))
              (g.seq (g.pos + i))) := by
  induction cs with
  | nil => intro k0 g i; simp [resampleComponents]
  | cons c cs ih =>
    intro k0 g i
    cases i with
    | zero => simp [resampleComponents, RNG.next]
    | succ i =>
      simp only [resampleComponents, RNG.next, List.get?_cons_succ]
      rw [ih (k0 + 1) ⟨g.seq, g.pos + 1⟩ i]
      simp only [show k0 + 1 + i = k0 + (i + 1) from by omega,
        show g.pos + 1 + i = g.pos + (i + 1) from by omega]

lemma sampleLabelsRows_length (E : Env α) (m : Mixture α) (b : Batch α) :
    ∀ (g : RNG α), (sampleLabelsRows E m b g).1.length = b.length := by
  induction b with
  | nil => intro g; rfl
  | cons r rs ih => intro g; simp [sampleLabelsRows, RNG.next, ih]

lemma sampleLabelsRows_snd (E : Env α) (m : Mixture α) (b : Batch α) :
    ∀ (g : RNG α), (sampleLabelsRows E m b g).2 = ⟨g.seq, g.pos + b.length⟩ := by
  induction b with
  | nil => intro g; simp [sampleLabelsRows]
  | cons r rs ih =>
    intro g
    simp only [sampleLabelsRows, RNG.next, ih, List.length_cons]
    exact congrArg _ (by omega)

lemma sampleLabelsRows_get (E : Env α) (m : Mixture α) (b : Batch α) :
    ∀ (g : RNG α) (j : ℕ),
      (sampleLabelsRows E m b g).1.get? j
        = (b.get? j).map (fun r =>
            sampleDiscreteFromLog E.exp (m.scoreRow r) (g.seq (g.pos + j))) := by
  induction b with
  | nil => intro g j; simp [sampleLabelsRows]
  | cons r rs ih =>
    intro g j
    cases j with
    | zero => simp [sampleLabelsRows, RNG.next]
    | succ j =>
      simp only [sampleLabelsRows, RNG.next, List.get?_cons_succ]
      rw [ih ⟨g.seq, g.pos + 1⟩ j]
      simp only [show g.pos + 1 + j = g.pos + (j + 1) from by omega]

lemma resampleLabels_length_map (E : Env α) (m : Mixture α)
    (bs : List (Batch α)) :
    ∀ (g : RNG α),
      ((m.resampleLabels E bs g).1).map List.length = bs.map List.length := by
  induction bs with
  | nil => intro g; rfl
  | cons b bs ih =>
    intro g
    simp [Mixture.resampleLabels, sampleLabelsRows_length, ih]

lemma resampleLabels_snd (E : Env α) (m : Mixture α) (bs : List (Batch α)) :
    ∀ (g : RNG α),
      (m.resampleLabels E bs g).2
        = ⟨g.seq, g.pos + (bs.map List.length).sum⟩ := by
  induction bs with
  | nil => intro g; simp [Mixture.resampleLabels]
  | cons b bs ih =>
    intro g
    simp only [Mixture.resampleLabels, sampleLabelsRows_snd, ih,
      List.map_cons, List.sum_cons]
    exact congrArg _ (by omega)

lemma resampleLabels_get (E : Env α) (m : Mixture α) (bs : List (Batch α)) :
    ∀ (g : RNG α) (i : ℕ),
      (m.resampleLabels E bs g).1.get? i
        = (bs.get? i).map (fun b =>
            (sampleLabelsRows E m b
              ⟨g.seq, g.pos + ((bs.take i).map List.length).sum⟩).1) := by
  induction bs with
  | nil => intro g i; simp [Mixture.resampleLabels]
  | cons b bs ih =>
    intro g i
    cases i with
    | zero =>
      simp [Mixture.resampleLabels]
    | succ i =>
      simp only [Mixture.resampleLabels, sampleLabelsRows_snd,
        List.get?_cons_succ]
      rw [ih ⟨g.seq, g.pos + b.length⟩ i]
      simp only [List.take_succ_cons, List.map_cons, List.sum_cons,
        show ∀ s : ℕ, g.pos + b.length + s = g.pos + (b.length + s) from
          fun s => by omega]

lemma scoreRow_congr {m1 m2 : Mixture α} (hg : m1.gating = m2.gating)
    (he : m1.ensemble = m2.ensemble) : m1.scoreRow = m2.scoreRow := by
  funext r
  simp [Mixture.scoreRow, Mixture.size, Mixture.components, hg, he]

lemma sampleLabelsRows_congr (E : Env α) {m1 m2 : Mixture α}
    (h : m1.scoreRow = m2.scoreRow) (b : Batch α) :
    ∀ (g : RNG α), sampleLabelsRows E m1 b g = sampleLabelsRows E m2 b g := by
  induction b with
  | nil => intro g; rfl
  | cons r rs ih => intro g; simp [sampleLabelsRows, h, ih]

lemma resampleLabels_congr (E : Env α) {m1 m2 : Mixture α}
    (h : m1.scoreRow = m2.scoreRow) (bs : List (Batch α)) :
    ∀ (g : RNG α), m1.resampleLabels E bs g = m2.resampleLabels E bs g := by
  induction bs with
  | nil => intro g; rfl
  | cons b bs ih =>
    intro g
    simp [Mixture.resampleLabels, sampleLabelsRows_congr E h, ih]

lemma scoreRow_ne_nil (m : Mixture α) (r : Row α) (hK : 0 < m.size) :
    m.scoreRow r ≠ [] := by
  intro hnil
  have hlen := scoreRow_length m r
  rw [hnil] at hlen
  simp only [List.length_nil] at hlen
  omega

lemma resample_eq (E : Env α) (m : Mixture α) (g : RNG α)
    (h : m.hasData = true) :
    m.resample E g
      = ({ gating := E.gatingResample m.gating
             ((List.range m.ensemble.components.length).map
               (labelCount m.labels))
             (g.seq (g.pos + m.ensemble.components.length)),
           ensemble := ⟨(resampleComponents E m.obs m.labels
             m.ensemble.components 0 g).1⟩,
           obs := m.obs,
           labels := (Mixture.resampleLabels E
             { gating := E.gatingResample m.gating
                 ((List.range m.ensemble.components.length).map
                   (labelCount m.labels))
                 (g.seq (g.pos + m.ensemble.components.length)),
               ensemble := ⟨(resampleComponents E m.obs m.labels
                 m.ensemble.components 0 g).1⟩,
               obs := m.obs, labels := m.labels,
               whitend := m.whitend, transform := m.transform }
             m.obs ⟨g.seq, g.pos + m.ensemble.components.length + 1⟩).1,
           whitend := m.whitend,
           transform := m.transform },
         ⟨g.seq, g.pos + m.ensemble.components.length + 1
            + (m.obs.map List.length).sum⟩) := by
  have hD : (!m.obs.isEmpty) = true := h
  simp only [Mixture.resample, Ensemble.resample, Mixture.resampleGating,
    RNG.next, Mixture.labelCounts, Mixture.size, Mixture.hasData,
    resampleComponents_snd, resampleComponents_length, resampleLabels_snd,
    hD, if_true]

lemma resample_eq_nodata (E : Env α) (m : Mixture α) (g : RNG α)
    (h : m.hasData = false) :
    m.resample E g
      = ({ gating := E.gatingResample m.gating
             ((List.range m.ensemble.components.length).map
               (labelCount m.labels))
             (g.seq (g.pos + m.ensemble.components.length)),
           ensemble := ⟨(resampleComponents E m.obs m.labels
             m.ensemble.components 0 g).1⟩,
           obs := m.obs,
           labels := m.labels,
           whitend := m.whitend,
           transform := m.transform },
         ⟨g.seq, g.pos + m.ensemble.components.length + 1
            + (m.obs.map List.length).sum⟩) := by
  have hD : (!m.obs.isEmpty) = false := h
  simp only [Mixture.resample, Ensemble.resample, Mixture.resampleGating,
    RNG.next, Mixture.labelCounts, Mixture.size, Mixture.hasData,
    resampleComponents_snd, resampleComponents_length, resampleLabels_snd,
    hD, Bool.false_eq_true, if_false]

/-! ### Claim theorems -/

/-- C8: `clear_data()` removes all observation batches and all labels,
returning the instance to the empty-data state (`has_data()` is false
afterwards), while the gating, the ensemble (component posteriors), the
whitening flag and the fitted transform are untouched. -/
theorem c8_clear_data (m : Mixture α) :
    m.clearData.obs = [] ∧ m.clearData.labels = [] ∧
    m.clearData.hasData = false ∧
    m.clearData.gating = m.gating ∧ m.clearData.ensemble = m.ensemble ∧
    m.clearData.whitend = m.whitend ∧ m.clearData.transform = m.transform :=
  ⟨rfl, rfl, rfl, rfl, rfl, rfl, rfl⟩

/-- C10: on a 2-D array, `getdatasize` returns the number of rows free of
NaN (0 for a zero-length array); on a list of arrays it returns the sum of
the per-array counts; `gi` returns the boolean mask of exactly the NaN-free
rows for nonempty input, but `None` for zero-length input. -/
theorem c10_getdatasize (d : Batch α) (ds : List (Batch α)) :
    getdatasizeArr d = d.countP (fun r => !rowHasNaN r) ∧
    (d ≠ [] → gi d = some (d.map (fun r => !rowHasNaN r))) ∧
    gi ([] : Batch α) = none ∧
    getdatasizeList ds = (ds.map getdatasizeArr).sum := by
  have hmask : ∀ d0 : Batch α,
      d0.map (fun r => r.countP FV.isNaN == 0)
        = d0.map (fun r => !rowHasNaN r) :=
    fun d0 => List.map_congr_left (fun r _ => countP_isNaN_beq_zero r)
  refine ⟨?_, ?_, rfl, rfl⟩
  · cases d with
    | nil => rfl
    | cons r rs =>
      have h1 : gi (r :: rs) = some ((r :: rs).map (fun r0 => !rowHasNaN r0)) := by
        simp only [gi, List.isEmpty_cons, Bool.false_eq_true, if_false]
        rw [hmask (r :: rs)]
      simp only [getdatasizeArr, h1, List.isEmpty_cons, Bool.false_eq_true,
        if_false, List.countP_map]
      rfl
  · intro hd
    have hde : d.isEmpty = false := by simpa using hd
    simp only [gi, hde, Bool.false_eq_true, if_false]
    rw [hmask d]

/-- C10 witness: concrete evaluation on a batch with one NaN row and one
clean row. -/
theorem c10_witness :
    ([[FV.nan], [FV.val (1 : ℚ)]] : Batch ℚ) ≠ [] ∧
    getdatasizeArr ([[FV.nan], [FV.val (1 : ℚ)]] : Batch ℚ)
      = ([[FV.nan], [FV.val (1 : ℚ)]] : Batch ℚ).countP (fun r => !rowHasNaN r) ∧
    gi ([[FV.nan], [FV.val (1 : ℚ)]] : Batch ℚ)
      = some (([[FV.nan], [FV.val (1 : ℚ)]] : Batch ℚ).map (fun r => !rowHasNaN r)) := by
  have h := c10_getdatasize ([[FV.nan], [FV.val (1 : ℚ)]] : Batch ℚ) []
  exact ⟨by decide, h.1, h.2.1 (by decide)⟩

/-- C7: the mixture's `log_likelihood` of an observation matrix equals the
sum, over exactly the rows containing no NaN, of the log-sum-exp across
components of the per-row log joint scores; on a list of matrices it is the
sum of the per-matrix values (and, being a pure function, it leaves the
stored data untouched). -/
theorem c7_log_likelihood (E : Env α) (m : Mixture α) (b : Batch α)
    (bs : List (Batch α)) :
    m.logLikelihoodB E b
      = ((b.filter (fun r => !rowHasNaN r)).map
          (fun r => logsumexp E (m.scoreRow r))).sum ∧
    m.logLikelihoodL E bs = (bs.map (fun b2 => m.logLikelihoodB E b2)).sum := by
  constructor
  · unfold Mixture.logLikelihoodB Mixture.logScores
    rw [zip_filter_map_congr b m.scoreRow (fun r => !rowHasNaN r)
      (fun s => logsumexp E s)]
  · rfl

/-- C2: `scores()` returns a row-stochastic responsibility matrix: each row
is the exponential of (log score minus the row-wise maximum), normalized by
the row sum, and each row sums to 1.  Stated for any mixture with at least
one component and any exponential function that is everywhere positive (as
the real exponential is). -/
theorem c2_scores_row_stochastic (E : Env α) (m : Mixture α) (obs : Batch α)
    (hK : 0 < m.size) (hexp : ∀ x : α, 0 < E.exp x) :
    (∀ i s, (m.logScores obs).get? i = some s →
      (m.scores E obs).get? i
        = some ((s.map (fun x => E.exp (x - listMax s))).map
            (fun y => y / (s.map (fun x => E.exp (x - listMax s))).sum))) ∧
    ∀ row ∈ m.scores E obs, row.sum = 1 := by
  constructor
  · intro i s hs
    have hm : (m.scores E obs).get? i
        = ((m.logScores obs).get? i).map (normalizeRow E.exp) := by
      simp [Mixture.scores, List.get?_map]
    rw [hm, hs]
    rfl
  · intro row hrow
    simp only [Mixture.scores, List.mem_map] at hrow
    obtain ⟨s, hsmem, rfl⟩ := hrow
    simp only [Mixture.logScores, List.mem_map] at hsmem
    obtain ⟨r, _, rfl⟩ := hsmem
    apply normalizeRow_sum_eq_one E.exp hexp
    have := scoreRow_length m r
    intro hnil
    rw [hnil] at this
    simp only [List.length_nil] at this
    omega

/-- C2 witness: the theorem applied to a concrete one-component mixture over
`ℚ` with the positive constant function as exponential. -/
theorem c2_witness :
    0 < cMixD.size ∧ (∀ x : ℚ, 0 < cEnv.exp x) ∧
    ∀ row ∈ cMixD.scores cEnv [cRow], row.sum = 1 :=
  ⟨by decide, fun _ => one_pos,
    (c2_scores_row_stochastic cEnv cMixD [cRow] (by decide)
      (fun _ => one_pos)).2⟩

/-- C5 counterexample: a mixture holding one batch with zero rows has data
added (`has_data()` is true) yet `used_labels` is empty — refuting the
claim's "empty if and only if no data has been added" (and when no data has
been added at all, `used_labels` raises an assertion error instead of
returning an empty set). -/
theorem c5_counterexample :
    cMixEB.hasData = true ∧ cMixEB.usedLabels = some [] := ⟨rfl, by decide⟩

/-- C5 (amended): `used_labels` asserts that data is present (error when no
data has been added); when data is present it is the increasing list of
component indices with nonzero total assignment count across all batches,
and — provided every stored label is below K — it is exactly the subset of
`{0, ..., K-1}` with nonzero count.  It can be empty even with data added
(all stored batches have zero rows). -/
theorem c5_used_labels (m : Mixture α)
    (hK : ∀ l ∈ m.labels.flatten, l < m.size) :
    (m.hasData = false → m.usedLabels = none) ∧
    (m.hasData = true →
      ∃ U, m.usedLabels = some U ∧ U.Sorted (· < ·) ∧
        (∀ k, k ∈ U ↔ k < m.size ∧ 0 < labelCount m.labels k)) := by
  have hub : labelsUB m.labels ≤ m.size := by
    apply foldr_max_le
    intro x hx
    simp only [labelsUB] at hx ⊢
    obtain ⟨l, hl, rfl⟩ := List.mem_map.mp hx
    exact hK l hl
  have hmax : max m.size (labelsUB m.labels) = m.size := max_eq_left hub
  constructor
  · intro h
    simp [Mixture.usedLabels, h]
  · intro h
    refine ⟨(List.range m.size).filter (fun k => 0 < labelCount m.labels k),
      ?_, ?_, ?_⟩
    · simp [Mixture.usedLabels, h, hmax]
    · exact (List.sorted_lt_range m.size).filter _
    · intro k
      simp [List.mem_filter, List.mem_range]

/-- C5 witness: the amended theorem applied to a concrete one-component
mixture with one stored row labelled 0. -/
theorem c5_witness :
    (∀ l ∈ cMixD.labels.flatten, l < cMixD.size) ∧
    (cMixD.hasData = true →
      ∃ U, cMixD.usedLabels = some U ∧ U.Sorted (· < ·) ∧
        (∀ k, k ∈ U ↔ k < cMixD.size ∧ 0 < labelCount cMixD.labels k)) :=
  ⟨by decide, (c5_used_labels cMixD (by decide)).2⟩

/-- C6 (code bug): two successive `add_data` calls with `whiten=False`.
The code appends the freshly drawn labels but executes `self.obs = obs`,
replacing the stored batches instead of appending: afterwards only the
second batch is stored while two label batches exist, so earlier batches
are dropped and `obs`/`labels` fall out of sync (and no dimensionality
check is performed anywhere in `add_data`). -/
theorem c6_add_data_replaces_obs :
    cAddTwice.obs = [cBatch2] ∧ cAddTwice.labels = [[0], [0]] ∧
    cAddTwice.obs.length ≠ cAddTwice.labels.length :=
  ⟨rfl, rfl, by decide⟩

/-- C4 counterexample: with the gating's prior record at address 0 and its
posterior at address 1, promotion makes `prior` and `posterior` the same
address (an alias, not a distinct record), and a subsequent in-place
mutation of the posterior record (writing 5) is read back through the
promoted prior, which no longer holds its original value 0 — refuting
"subsequent mutation of the posterior leaves the promoted prior
unchanged". -/
theorem c4_counterexample :
    (promote cReg).gating.prior = (promote cReg).gating.posterior ∧
    cHeap ((promote cReg).gating.prior) = 0 ∧
    hwrite cHeap ((promote cReg).gating.posterior) 5
      ((promote cReg).gating.prior) = 5 ∧
    (5 : ℕ) ≠ 0 :=
  ⟨rfl, rfl, rfl, by decide⟩

/-- C4 (amended): the promotion performed by `fit` between super-iterations
(for the gating and every basis and model component, and only when another
super-iteration follows) assigns the posterior object itself to the prior
field — a reference assignment, after which prior and posterior are the
same record and in-place mutation of the posterior is visible through the
promoted prior. -/
theorem c4_promote_aliases {P : Type} (r : Regressor) (h : Heap P) (v : P) :
    (promote r).gating.prior = r.gating.posterior ∧
    (promote r).gating.prior = (promote r).gating.posterior ∧
    (∀ d ∈ (promote r).basis, d.prior = d.posterior) ∧
    (∀ d ∈ (promote r).models, d.prior = d.posterior) ∧
    hwrite h ((promote r).gating.posterior) v ((promote r).gating.prior) = v ∧
    (∀ s i : ℕ, promotesAt s i = true ↔ i + 1 < s) := by
  refine ⟨rfl, rfl, ?_, ?_, ?_, ?_⟩
  · intro d hd
    simp only [promote, List.mem_map] at hd
    obtain ⟨d0, _, rfl⟩ := hd
    rfl
  · intro d hd
    simp only [promote, List.mem_map] at hd
    obtain ⟨d0, _, rfl⟩ := hd
    rfl
  · show hwrite h (r.gating.posterior) v (r.gating.posterior) = v
    simp [hwrite]
  · intro s i
    simp only [promotesAt, Bool.and_eq_true, decide_eq_true_eq]
    omega

/-- C4 witness: the amended theorem applied to the concrete regressor and
heap, writing 37 into the promoted posterior and reading it back through
the prior. -/
theorem c4_witness :
    (promote cReg).gating.prior = cReg.gating.posterior ∧
    hwrite cHeap ((promote cReg).gating.posterior) 37
      ((promote cReg).gating.prior) = 37 :=
  ⟨(c4_promote_aliases cReg cHeap 37).1,
   (c4_promote_aliases cReg cHeap 37).2.2.2.2.1⟩

/-- C3 counterexample: a mixture whose only component scores `-inf` on a
row.  The row is NOT excluded from responsibility normalization or label
resampling: `np.nan_to_num` clamps the `-inf` to the most negative finite
double, so `scores` assigns the row a full (normalized) responsibility
distribution and `_resample_labels` samples a label for it.  The call
indeed does not crash, but by inclusion rather than exclusion. -/
theorem c3_counterexample :
    cCompNinf.ll cRow = FV.ninf ∧
    cMixNinf.scores cEnv [cRow] = [[1]] ∧
    (cMixNinf.resampleLabels cEnv [[cRow]] cRNG).1 = [[0]] := by
  refine ⟨rfl, ?_, ?_⟩
  · norm_num [Mixture.scores, Mixture.logScores, Mixture.scoreRow,
      Mixture.size, Mixture.components, cMixNinf, cEnv, cGating, cCompNinf,
      normalizeRow, listMax, nanToNum]
  · norm_num [Mixture.resampleLabels, sampleLabelsRows, sampleDiscreteFromLog,
      RNG.next, cRNG, cMixNinf, cEnv, cGating, cCompNinf, Mixture.scoreRow,
      Mixture.size, Mixture.components, nanToNum, listMax, cumsum,
      List.countP_cons, List.countP_nil]

/-- C3 (amended): on a row where every component's log score is `-inf`,
`log_scores` clamps each component score to the most negative finite double
(`np.nan_to_num`), the row stays in the normalization with a well-defined
responsibility row summing to 1, label resampling still produces exactly
one label per row, and nothing crashes. -/
theorem c3_allinf_row_clamped (E : Env α) (m : Mixture α) (r : Row α)
    (hK : 0 < m.size) (hexp : ∀ x : α, 0 < E.exp x)
    (hall : ∀ c ∈ m.components, c.ll r = FV.ninf) :
    m.scoreRow r
      = (List.range m.size).map (fun k => m.gating.ll k + floatMin) ∧
    (normalizeRow E.exp (m.scoreRow r)).sum = 1 ∧
    ∀ (obs : List (Batch α)) (g : RNG α),
      ((m.resampleLabels E obs g).1).map List.length
        = obs.map List.length := by
  refine ⟨?_, ?_, fun obs g => resampleLabels_length_map E m obs g⟩
  · unfold Mixture.scoreRow
    have hlen : m.components.length = m.size := rfl
    rw [← hlen]
    apply zipWith_range_congr
    intro i c hc
    have hmem : c ∈ m.components := List.get?_mem hc
    rw [hall c hmem]
    rfl
  · exact normalizeRow_sum_eq_one E.exp hexp _ (scoreRow_ne_nil m r hK)

/-- C3 witness: the amended theorem applied to the concrete one-component
`-inf` mixture over `ℚ`. -/
theorem c3_witness :
    0 < cMixNinf.size ∧ (∀ x : ℚ, 0 < cEnv.exp x) ∧
    (∀ c ∈ cMixNinf.components, c.ll cRow = FV.ninf) ∧
    (normalizeRow cEnv.exp (cMixNinf.scoreRow cRow)).sum = 1 :=
  ⟨by decide, fun _ => one_pos, by decide,
    (c3_allinf_row_clamped cEnv cMixNinf cRow (by decide) (fun _ => one_pos)
      (by decide)).2.1⟩

/-- C1 counterexample: the claim's formula "log joint score of row `r` and
component `k` equals `gating.log_likelihood(k) + component_k.log_likelihood(r)`"
fails when the component's log-likelihood is not finite: for a component
returning NaN (as a Gaussian does on a row with missing values) the code's
log score is `gating.ll 0 + nan_to_num(NaN) = 0`, a finite value, whereas
the claimed sum is NaN — not equal to any finite score. -/
theorem c1_counterexample :
    cMixNan.scoreRow cRow = [(0 : ℚ)] ∧
    cMixNan.components.map
        (fun c => FV.add (FV.val (cMixNan.gating.ll 0)) (c.ll cRow))
      = [FV.nan] ∧
    (FV.nan : FV ℚ) ≠ FV.val 0 := by
  refine ⟨?_, rfl, by decide⟩
  norm_num [Mixture.scoreRow, Mixture.size, Mixture.components, cMixNan,
    cGating, cCompNan, nanToNum, List.range_succ]

/-- C1 (amended): with data loaded, one `resample()` call performs, in
order: (i) every component's posterior is resampled from the rows currently
assigned to it; (ii) the gating posterior is resampled from the label
counts; (iii) for every row a new label is sampled from the categorical
distribution obtained by exponentiating (with max-subtraction) and
normalizing the per-component log joint scores of the updated state, where
the log joint score of row `r` and component `k` is
`gating.log_likelihood(k) + nan_to_num(component_k.log_likelihood(r))`
(non-finite component log-likelihoods are clamped by `np.nan_to_num`); the
stored labels are then replaced wholesale, and the data and whitening state
are untouched.  The order shows in the consumed random draws: components
use draws 0..K-1, the gating draw K, and row (i,j) draw K+1+offset. -/
theorem c1_resample_gibbs_steps (E : Env α) (m : Mixture α) (g : RNG α)
    (h : m.hasData = true) :
    (∀ k, (m.resample E g).1.ensemble.components.get? k
        = (m.ensemble.components.get? k).map
            (fun c => E.compResample c (assignedRows m.obs m.labels k)
              (g.seq (g.pos + k)))) ∧
    (m.resample E g).1.gating
      = E.gatingResample m.gating
          ((List.range m.size).map (labelCount m.labels))
          (g.seq (g.pos + m.size)) ∧
    ((m.resample E g).1.labels).map List.length = m.obs.map List.length ∧
    (∀ i j b r, m.obs.get? i = some b → b.get? j = some r →
        ((m.resample E g).1.labels.get? i).bind (fun ls => ls.get? j)
          = some (sampleDiscreteFromLog E.exp ((m.resample E g).1.scoreRow r)
              (g.seq (g.pos + m.size + 1
                + ((m.obs.take i).map List.length).sum + j)))) ∧
    (m.resample E g).1.obs = m.obs ∧
    (m.resample E g).1.whitend = m.whitend ∧
    (m.resample E g).1.transform = m.transform := by
  rw [resample_eq E m g h]
  refine ⟨?_, rfl, ?_, ?_, rfl, rfl, rfl⟩
  · intro k
    simpa using resampleComponents_get E m.obs m.labels
      m.ensemble.components 0 g k
  · exact resampleLabels_length_map E _ m.obs _
  · intro i j b r hi hj
    rw [resampleLabels_get E _ m.obs _ i, hi]
    simp only [Option.map_some', Option.some_bind]
    rw [sampleLabelsRows_get E _ b _ j, hj]
    simp only [Option.map_some', Option.some.injEq]
    have hsc : Mixture.scoreRow (α := α)
        { gating := E.gatingResample m.gating
            ((List.range m.ensemble.components.length).map
              (labelCount m.labels))
            (g.seq (g.pos + m.ensemble.components.length)),
          ensemble := ⟨(resampleComponents E m.obs m.labels
            m.ensemble.components 0 g).1⟩,
          obs := m.obs, labels := m.labels,
          whitend := m.whitend, transform := m.transform }
        = Mixture.scoreRow (α := α)
        { gating := E.gatingResample m.gating
            ((List.range m.ensemble.components.length).map
              (labelCount m.labels))
            (g.seq (g.pos + m.ensemble.components.length)),
          ensemble := ⟨(resampleComponents E m.obs m.labels
            m.ensemble.components 0 g).1⟩,
          obs := m.obs,
          labels := (Mixture.resampleLabels E
            { gating := E.gatingResample m.gating
                ((List.range m.ensemble.components.length).map
                  (labelCount m.labels))
                (g.seq (g.pos + m.ensemble.components.length)),
              ensemble := ⟨(resampleComponents E m.obs m.labels
                m.ensemble.components 0 g).1⟩,
              obs := m.obs, labels := m.labels,
              whitend := m.whitend, transform := m.transform }
            m.obs ⟨g.seq, g.pos + m.ensemble.components.length + 1⟩).1,
          whitend := m.whitend, transform := m.transform } :=
      scoreRow_congr rfl rfl
    rw [hsc]
    exact congrArg _ (congrArg _ (by simp [Mixture.size]))

/-- C1 witness: the amended theorem applied to a concrete one-component
mixture with one stored labelled row. -/
theorem c1_witness :
    cMixD.hasData = true ∧
    (cMixD.resample cEnv cRNG).1.gating
      = cEnv.gatingResample cMixD.gating
          ((List.range cMixD.size).map (labelCount cMixD.labels))
          (cRNG.seq (cRNG.pos + cMixD.size)) :=
  ⟨rfl, (c1_resample_gibbs_steps cEnv cMixD cRNG rfl).2.1⟩

/-- C9: Gibbs resampling is deterministic under a fixed seed and a pure
function of the model state and assigned data: two mixtures agreeing on
gating, ensemble, observations and labels (even if they differ in the
whitening flag or the stored transform) produce, from the same random
stream, identical resampled ensembles and gating posteriors, identical new
label assignments, and the same final stream position. -/
theorem c9_resample_deterministic (E : Env α) (m1 m2 : Mixture α) (g : RNG α)
    (hg : m1.gating = m2.gating) (he : m1.ensemble = m2.ensemble)
    (ho : m1.obs = m2.obs) (hl : m1.labels = m2.labels) :
    (m1.resample E g).1.ensemble = (m2.resample E g).1.ensemble ∧
    (m1.resample E g).1.gating = (m2.resample E g).1.gating ∧
    (m1.resample E g).1.labels = (m2.resample E g).1.labels ∧
    (m1.resample E g).2 = (m2.resample E g).2 := by
  cases hD : m1.hasData with
  | true =>
    have hD2 : m2.hasData = true := by
      unfold Mixture.hasData at hD ⊢
      rw [← ho]
      exact hD
    rw [resample_eq E m1 g hD, resample_eq E m2 g hD2]
    refine ⟨by simp only [he, ho, hl], by simp only [hg, he, hl], ?_,
      by simp only [he, ho]⟩
    simp only [hg, he, ho, hl]
    refine congrArg Prod.fst (resampleLabels_congr E ?_ m2.obs _)
    exact scoreRow_congr rfl rfl
  | false =>
    have hD2 : m2.hasData = false := by
      unfold Mixture.hasData at hD ⊢
      rw [← ho]
      exact hD
    rw [resample_eq_nodata E m1 g hD, resample_eq_nodata E m2 g hD2]
    exact ⟨by simp only [he, ho, hl], by simp only [hg, he, hl],
      by simp only [hl], by simp only [he, ho]⟩

/-- C9 witness: two concrete mixtures that differ only in the whitening
flag and transform resample to identical labels from the same stream. -/
theorem c9_witness :
    cMixD.gating = cMixDW.gating ∧ cMixD.ensemble = cMixDW.ensemble ∧
    cMixD.obs = cMixDW.obs ∧ cMixD.labels = cMixDW.labels ∧
    (cMixD.resample cEnv cRNG).1.labels
      = (cMixDW.resample cEnv cRNG).1.labels :=
  ⟨rfl, rfl, rfl, rfl,
    (c9_resample_deterministic cEnv cMixD cMixDW cRNG rfl rfl rfl
      rfl).2.2.1⟩

end Mimo

